import Mathlib

/-!
Verification development for the image-tagging batch pipeline of this
repository (source file: js/scripts.js, the tagGalleryAI section).

The pipeline scans a directory of images, derives filename hints, calls a
vision model per image with bounded retries, parses the JSON reply into a
TagResult, filters out unrecognized vehicles, copies recognized images under
collision-free names, and renders an HTML gallery fragment.

The definitions below are a shallow embedding of that JavaScript code:
strings are Lean strings (lists of characters), the filesystem of the output
directory is a list of file names, the external inference service is an
oracle mapping attempt numbers to outcomes, and JSON parsing is an abstract
parameter (the code calls the runtime JSON.parse; every theorem that depends
on parsing is stated for an arbitrary parse function).
-/

set_option maxRecDepth 16384
set_option maxHeartbeats 1000000

namespace TagGallery

/-- Whitespace as matched by the regular-expression class backslash-s of the
source (ASCII part; space, tab, line feed, carriage return, vertical tab,
form feed). -/
def isJsWs (c : Char) : Bool :=
  c = ' ' || c = '\t' || c = '\n' || c = '\r' || c = '\x0b' || c = '\x0c'

/-- Lower-casing used by the source via toLowerCase; mapped over the
characters (ASCII case mapping, which is what matters for the ASCII
sentinel comparisons and alphanumeric sanitizing in the source). -/
def jsToLower (s : String) : String := ⟨s.data.map Char.toLower⟩

/-- Trim used by the source via the String trim method: remove leading and
trailing whitespace characters. -/
def trimChars (l : List Char) : List Char :=
  ((l.dropWhile isJsWs).reverse.dropWhile isJsWs).reverse

/-- String-level wrapper of trimChars. -/
def jsTrim (s : String) : String := ⟨trimChars s.data⟩

/-- Structured result of one classification call, source lines 154, 167 and
170-176: four coerced string fields plus the raw cleaned text kept for
diagnosis. -/
structure TagResult where
  year : String
  make : String
  model : String
  description : String
  raw : String
deriving Repr, DecidableEq

/-- All-empty TagResult, the degraded result the source returns on
empty responses and transport errors. -/
def emptyTag : TagResult := ⟨"", "", "", "", ""⟩

/-- Validity predicate of source line 215:
make and model truthy (non-empty), the lower-cased make different from
"unknown" and the lower-cased model different from "vehicle". -/
def hasValidData (r : TagResult) : Bool :=
  r.make != "" && r.model != "" &&
    jsToLower r.make != "unknown" && jsToLower r.model != "vehicle"

/-- Separator class of the split regular expression of source line 95:
underscore, whitespace, hyphen, dot (one or more, runs collapsed). -/
def isSep (c : Char) : Bool := c = '_' || isJsWs c || c = '-' || c = '.'

/-- Splitting a character list on runs of separators, mirroring the
JavaScript String split on the regular expression class of isSep with a
plus quantifier: a run of consecutive separators produces a single cut,
while a leading or trailing run produces a leading or trailing empty
token, and the empty input produces one empty token. -/
def splitRuns : List Char → List (List Char)
  | [] => [[]]
  | c :: rest =>
    if isSep c then
      match rest with
      | [] => [] :: [[]]
      | d :: _ => if isSep d then splitRuns rest else [] :: splitRuns rest
    else
      match splitRuns rest with
      | ts :: tss => (c :: ts) :: tss
      | [] => [[c]]

/-- Token test of source line 96: the whole token is exactly four decimal
digits. -/
def isYear4 (t : String) : Bool := t.data.length == 4 && t.data.all Char.isDigit

/-- Hints derived from a filename, source lines 92-98. -/
structure FilenameHints where
  maybeYear : String
  maybeWords : List String
deriving Repr, DecidableEq

/-- Source function hintsFromFilename (lines 92-98), applied to the base
name of the file (the source first strips the directory and extension with
path.basename): split on separator runs, take the first four-digit token as
the year hint (empty string when there is none), and keep the tokens
different from the year hint as word hints. -/
def hintsFromFilename (name : String) : FilenameHints :=
  let parts : List String := (splitRuns name.data).map (fun l => ⟨l⟩)
  let maybeYear : String := (parts.find? isYear4).getD ""
  ⟨maybeYear, parts.filter (fun p => p != maybeYear)⟩

/-- Token list of a name, as used by hintsFromFilename. -/
def nameTokens (name : String) : List String :=
  (splitRuns name.data).map (fun l => ⟨l⟩)

/-- Opening fence characters matched at the start of the string by the
replace of source line 158. -/
def fencePre : List Char := "```json".data

/-- Closing fence characters matched at the end of the string by the
replace of source line 158. -/
def fenceSuf : List Char := "```".data

/-- Leading branch of the fence-stripping replace of source line 158: the
anchored alternative matches the opening fence at the very start of the
string, together with the following whitespace. -/
def dropFencePre (l : List Char) : List Char :=
  if l.take 7 = fencePre then (l.drop 7).dropWhile isJsWs else l

/-- Trailing branch of the fence-stripping replace of source line 158: the
anchored alternative matches whitespace followed by the closing fence at
the very end of the string. -/
def dropFenceSuf (l : List Char) : List Char :=
  if l.reverse.take 3 = fenceSuf then
    ((l.reverse.drop 3).dropWhile isJsWs).reverse
  else l

/-- Cleaning of source line 158: strip an accidental code fence at either
end, then trim. -/
def cleanFence (s : String) : String :=
  ⟨trimChars (dropFenceSuf (dropFencePre s.data))⟩

/-- Value of one field of the object returned by JSON parsing, as far as the
source inspects it: either a string or something of another runtime type
(object, number, boolean, null, absent). -/
inductive JsVal where
  | str (s : String)
  | nonStr
deriving Repr, DecidableEq

/-- The four fields the source reads off the parsed object
(lines 170-173). -/
structure ParsedFields where
  year : JsVal
  make : JsVal
  model : JsVal
  description : JsVal
deriving Repr, DecidableEq

/-- Field coercion of source lines 170-173: keep the value only when it is a
string, trimmed; anything else becomes the empty string. -/
def coerceField : JsVal → String
  | .str s => jsTrim s
  | .nonStr => ""

/-- Body of the try block of analyzeImage once a response text has been
extracted (source lines 151-176): empty text gives the all-empty result;
otherwise the text is cleaned, JSON-parsed (the parse function is the
abstract stand-in for JSON.parse, returning none exactly when parsing
throws), and on parse failure the all-empty result carries the cleaned
text, while on success the four fields are coerced and the cleaned text is
kept as the raw field. -/
def processResponse (parse : String → Option ParsedFields) (rawText : String) :
    TagResult :=
  if rawText = "" then emptyTag
  else
    let cleaned := cleanFence rawText
    match parse cleaned with
    | none => { emptyTag with raw := cleaned }
    | some f =>
        ⟨coerceField f.year, coerceField f.make, coerceField f.model,
          coerceField f.description, cleaned⟩

/-- Outcome of one call to the inference service, as the source observes it:
either a response whose extracted text is the given string (already trimmed
by the extraction of lines 145-149), or a thrown transport error carrying a
status code and a message (lines 178-180; a missing status is modelled as
code 0). -/
inductive ApiOutcome where
  | success (text : String)
  | error (code : Nat) (msg : String)

/-- Substring test used to model the rate regular-expression test of source
line 184 (case-insensitive containment of the four letters of rate). -/
def hasSubstr (l : List Char) (sub : List Char) : Bool :=
  match l with
  | [] => sub.isEmpty
  | _ :: t => sub.isPrefixOf l || hasSubstr t sub

/-- Rate-limit test of source line 184: status code 429, or a message that
matches the rate pattern case-insensitively. -/
def isRateLimit (code : Nat) (msg : String) : Bool :=
  code == 429 || hasSubstr (jsToLower msg).data "rate".data

/-- Retry loop of analyzeImage (source lines 123-193), driven by an oracle
giving the outcome of each attempt. The fuel argument is the number of loop
iterations still allowed by the for bound; it is always 4 - attempt at the
call sites, so the fuel-exhaustion branch is unreachable (the guard
attempt < 3 stops the recursion first). Returns the result together with
the number of the attempt that produced it and the list of backoff waits
(in milliseconds) performed before retries. -/
def analyzeGo (parse : String → Option ParsedFields) (responses : Nat → ApiOutcome) :
    Nat → Nat → List Nat → TagResult × Nat × List Nat
  | _, 0, waits => (emptyTag, 0, waits)
  | attempt, fuel + 1, waits =>
    match responses attempt with
    | .success t => (processResponse parse t, attempt, waits)
    | .error code msg =>
      if isRateLimit code msg ∧ attempt < 3 then
        analyzeGo parse responses (attempt + 1) fuel (waits ++ [1000 * attempt ^ 2])
      else (emptyTag, attempt, waits)

/-- Classification of one image, source lines 123-193: up to three attempts
starting at attempt 1. -/
def analyzeImage (parse : String → Option ParsedFields)
    (responses : Nat → ApiOutcome) : TagResult × Nat × List Nat :=
  analyzeGo parse responses 1 3 []

/-- Inference oracle that always rate-limits, for the witness. -/
def all429 : Nat → ApiOutcome := fun _ => .error 429 "Too Many Requests"

/-- Inference oracle that fails hard on every attempt, for the witness. -/
def errBad : Nat → ApiOutcome := fun _ => .error 400 "Invalid value"

/-- Parse function that always fails, for witnesses. -/
def parseNone : String → Option ParsedFields := fun _ => none

/-- Inference oracle returning unparseable text, for the witness. -/
def succBad : Nat → ApiOutcome := fun _ => .success "not json"

/-- Concrete strict-JSON payload for the witness. -/
def jsonSample : String :=
  "\x7b\"year\":\"1969\",\"make\":\"Chevrolet\",\"model\":\"Camaro\",\"description\":\"x\"\x7d"

/-- Decimal value of a digit string, used only to prove that the decimal
rendering of the duplicate counter is injective. -/
def decDigits (l : List Char) : Nat :=
  l.foldl (fun a c => 10 * a + (c.toNat - 48)) 0

/-- Alphanumeric class of the sanitize regular expression of source line
227 (ASCII letters and digits, case-insensitive). -/
def isAlnum (c : Char) : Bool := c.isAlpha || c.isDigit

/-- First replace of safeName (source line 227): each maximal run of
non-alphanumeric characters becomes a single underscore. -/
def collapseRuns : List Char → List Char
  | [] => []
  | c :: rest =>
    if isAlnum c then c :: collapseRuns rest
    else
      match rest with
      | [] => ['_']
      | d :: _ => if isAlnum d then '_' :: collapseRuns rest else collapseRuns rest

/-- Second replace of safeName (source line 227): strip leading and
trailing underscores. -/
def trimUnderscores (l : List Char) : List Char :=
  ((l.dropWhile (fun c => c == '_')).reverse.dropWhile (fun c => c == '_')).reverse

/-- Sanitizing utility safeName of source lines 226-228: collapse
non-alphanumeric runs to underscores, strip outer underscores, then
lower-case. -/
def safeName (s : String) : String :=
  jsToLower ⟨trimUnderscores (collapseRuns s.data)⟩

/-- Extension of a plain file name as computed by path.extname at source
line 234: the suffix from the last dot, except that a dot in leading
position alone marks no extension. -/
def extOf (file : String) : String :=
  match file.data with
  | [] => ""
  | _ :: rest =>
    if rest.any (fun c => c == '.') then
      ⟨'.' :: (rest.reverse.takeWhile (fun c => !(c == '.'))).reverse⟩
    else ""

/-- Candidate destination names tried by the collision loop of source
lines 236-246: first the plain base name with the extension, then the base
name with an underscore and the counter value rendered in decimal. -/
def candName (base ext : String) : Nat → String
  | 0 => base ++ ext
  | k + 1 => base ++ "_" ++ Nat.repr (k + 1) ++ ext

/-- Collision loop of source lines 237-246 with explicit fuel; findFree
always passes enough fuel for the loop to reach a free name, so the
fuel-exhaustion branch is unreachable. -/
def findFreeGo (fs : List String) (base ext : String) : Nat → Nat → String
  | k, 0 => candName base ext k
  | k, fuel + 1 =>
    let d := candName base ext k
    if d ∈ fs then findFreeGo fs base ext (k + 1) fuel else d

/-- Destination name chosen by the collision loop, given the list of file
names already present in the output directory. -/
def findFree (fs : List String) (base ext : String) : String :=
  findFreeGo fs base ext 0 (fs.length + 1)

/-- Quote escaping applied to the description when it is embedded in the
data-desc attribute (source line 263): every double quote becomes the
entity for a quotation mark. -/
def escQuotes (s : String) : String :=
  ⟨s.data.flatMap (fun c => if c == '"' then "&quot;".data else [c])⟩

/-- Join with single spaces, as the JavaScript array join of source
line 253. -/
def joinSpace : List String → String
  | [] => ""
  | [x] => x
  | x :: y :: rest => x ++ " " ++ joinSpace (y :: rest)

/-- Title of source line 253: the truthy (non-empty) of year, make, model
joined by single spaces. -/
def mkTitle (year make model : String) : String :=
  joinSpace ([year, make, model].filter (fun s => s != ""))

/-- HTML article fragment of source lines 260-272, with the template
literal split at each interpolation point. -/
def renderEntry (year make model description rel title : String) : String :=
  "\n  <article class=\"col-md-6 col-lg-4 gallery-item\"\n           data-year=\""
    ++ year ++ "\" data-make=\"" ++ make ++ "\" data-model=\"" ++ model
    ++ "\"\n           data-desc=\"" ++ escQuotes description
    ++ "\">\n    <div class=\"card bg-secondary text-white h-100 border-0 shadow-sm\">\n      <img src=\""
    ++ rel ++ "\" class=\"card-img-top\" alt=\"" ++ title
    ++ "\">\n      <div class=\"card-body\">\n        <h5 class=\"card-title\">"
    ++ title ++ "</h5>\n        <p class=\"card-text\">" ++ description
    ++ "</p>\n      </div>\n    </div>\n  </article>\n"

/-- Opening of the generated document, source lines 202-207. -/
def htmlHeader : String :=
  "\n<section id=\"gallery\" class=\"py-5 bg-dark text-white\">\n  <div class=\"container\">\n    <h2 class=\"text-center mb-5\">Vehicle Gallery</h2>\n    <div id=\"grid\" class=\"row g-4\">\n"

/-- Gallery entry produced for a recognized image: the interpolated fields,
the destination file name the entry points at, the title, and the rendered
article fragment. -/
structure GalleryEntry where
  year : String
  make : String
  model : String
  desc : String
  imagePath : String
  title : String
  html : String
deriving Repr, DecidableEq

/-- State threaded through the main loop of run (source lines 198-285):
the file names present in the output directory, the destinations copied so
far in this run (in order), the gallery entries accumulated so far (in
order), and the HTML accumulator. -/
structure RunState where
  fs : List String
  copied : List String
  entries : List GalleryEntry
  html : String
deriving Repr, DecidableEq

/-- Initial state of a run over an output directory already holding the
given file names. -/
def initState (fs0 : List String) : RunState := ⟨fs0, [], [], htmlHeader⟩

/-- Body of the per-image loop of run (source lines 209-275) for one input
file and its classification result: an invalid result is skipped entirely
(no copy, no entry); a valid result is copied under a collision-free name
built from the sanitized make, model and year with the extension of the
source file, and an article fragment is appended. The unreachable re-check
of validity at source lines 255-258 is dead code (the loop continues at
line 219 in the invalid case) and has no counterpart here. -/
def processOne (st : RunState) (file : String) (r : TagResult) : RunState :=
  if hasValidData r then
    let base := safeName r.make ++ "_" ++ safeName r.model ++ "_" ++ safeName r.year
    let dest := findFree st.fs base (extOf file)
    let title := mkTitle r.year r.make r.model
    let frag := renderEntry r.year r.make r.model r.description
      ("processed_gallery/" ++ dest) title
    ⟨dest :: st.fs, st.copied ++ [dest],
      st.entries ++ [⟨r.year, r.make, r.model, r.description, dest, title, frag⟩],
      st.html ++ frag⟩
  else st

/-- Main loop of run over the scanned input files, each paired with the
classification result the inference call produced for it. -/
def runAll (st : RunState) : List (String × TagResult) → RunState
  | [] => st
  | (file, r) :: rest => runAll (processOne st file r) rest

/-- Classification result used by the concrete conjuncts of the claims
about the run loop. -/
def camaroResult : TagResult :=
  ⟨"1969", "Chevrolet", "Camaro", "A classic muscle car.", ""⟩

/-- Claim C1 counterexample: the claim states that a result whose model
equals "unknown" is invalid, but the source compares only the make against
"unknown" (and only the model against "vehicle"), so a result with make
"Ford" and model "unknown" is accepted as valid. -/
theorem c1_counterexample :
    hasValidData ⟨"1969", "Ford", "unknown", "", ""⟩ = true := by decide

/-- Claim C1 (amended): isValid returns false exactly when make or model is
empty, or the make equals "unknown" (case-insensitive), or the model equals
"vehicle" (case-insensitive); each sentinel is checked against its own field
only, so model "unknown" or make "vehicle" does not invalidate a result. -/
theorem c1_isValid_amended (r : TagResult) :
    hasValidData r = false ↔
      r.make = "" ∨ r.model = "" ∨
        jsToLower r.make = "unknown" ∨ jsToLower r.model = "vehicle" := by
  simp [hasValidData, Bool.and_eq_false_iff, or_assoc]
  tauto

/-- Claim C1 amended witness: concrete evaluations of the amended
characterization. -/
theorem c1_isValid_amended_witness :
    hasValidData ⟨"1969", "Unknown", "Camaro", "", ""⟩ = false :=
  (c1_isValid_amended ⟨"1969", "Unknown", "Camaro", "", ""⟩).mpr (by decide)

/-- Claim C7: hintsFromFilename is a total function that splits the base
name on separator runs; the word hints are the tokens different from the
year hint; when no token is four digits the year hint is empty; and when
some token is four digits, the year hint is itself a four-digit token and
the token list decomposes around its first occurrence with no four-digit
token before it (first match wins). -/
theorem c7_deriveHints (name : String) :
    (hintsFromFilename name).maybeWords
        = (nameTokens name).filter (fun p => p != (hintsFromFilename name).maybeYear)
    ∧ ((∀ t ∈ nameTokens name, isYear4 t = false) →
        (hintsFromFilename name).maybeYear = "")
    ∧ (∀ t ∈ nameTokens name, isYear4 t = true →
        isYear4 (hintsFromFilename name).maybeYear = true ∧
        ∃ l1 l2, nameTokens name = l1 ++ (hintsFromFilename name).maybeYear :: l2 ∧
          ∀ b ∈ l1, isYear4 b = false) := by
  refine ⟨rfl, ?_, ?_⟩
  · intro h
    have hn : (nameTokens name).find? isYear4 = none := by
      rw [List.find?_eq_none]
      intro x hx
      simp [h x hx]
    show ((nameTokens name).find? isYear4).getD "" = ""
    rw [hn]
    rfl
  · intro t ht hy
    have hne : (nameTokens name).find? isYear4 ≠ none := by
      rw [Ne, List.find?_eq_none]
      push_neg
      exact ⟨t, ht, by simp [hy]⟩
    obtain ⟨y, hsome⟩ := Option.ne_none_iff_exists'.mp hne
    have hchar := List.find?_eq_some.mp hsome
    have hmy : (hintsFromFilename name).maybeYear = y := by
      show ((nameTokens name).find? isYear4).getD "" = y
      rw [hsome]
      rfl
    obtain ⟨hpy, as, bs, hdecomp, hbefore⟩ := hchar
    refine ⟨by rw [hmy]; exact hpy, as, bs, by rw [hmy]; exact hdecomp, ?_⟩
    intro b hb
    have := hbefore b hb
    simpa using this

/-- Claim C7 witness: concrete instance of the first-match and no-match
parts of the theorem. -/
theorem c7_deriveHints_witness :
    isYear4 (hintsFromFilename "a_1969_2020").maybeYear = true ∧
      (hintsFromFilename "Camaro_SS").maybeYear = "" :=
  ⟨((c7_deriveHints "a_1969_2020").2.2 "1969" (by decide) (by decide)).1,
   (c7_deriveHints "Camaro_SS").2.1 (by decide)⟩

/-- Claim C10: the filter of source line 97 removes every occurrence of the
chosen year token from the word hints, not only the first one; in general
the year hint never appears among the word hints, and on the concrete name
with a duplicated year token both copies are removed. -/
theorem c10_year_filtered_everywhere :
    (∀ name : String,
        (hintsFromFilename name).maybeYear ∉ (hintsFromFilename name).maybeWords)
    ∧ hintsFromFilename "1969_1969_Camaro" = ⟨"1969", ["Camaro"]⟩ := by
  constructor
  · intro name hmem
    have h := (List.mem_filter.mp hmem).2
    have e : (List.find? isYear4
        (List.map (fun l => (⟨l⟩ : String)) (splitRuns name.data))).getD ""
        = (hintsFromFilename name).maybeYear := rfl
    rw [e, bne_self_eq_false] at h
    exact Bool.noConfusion h
  · decide

/-- Step lemma: a successful response ends the loop with the processed
result at the current attempt. -/
theorem analyzeGo_success (parse : String → Option ParsedFields)
    (responses : Nat → ApiOutcome) (attempt fuel : Nat) (waits : List Nat)
    (t : String) (h : responses attempt = .success t) :
    analyzeGo parse responses attempt (fuel + 1) waits
      = (processResponse parse t, attempt, waits) := by
  simp only [analyzeGo, h]

/-- Step lemma: a rate-limited error before the final attempt waits and
retries. -/
theorem analyzeGo_error_retry (parse : String → Option ParsedFields)
    (responses : Nat → ApiOutcome) (attempt fuel : Nat) (waits : List Nat)
    (code : Nat) (msg : String) (h : responses attempt = .error code msg)
    (hr : isRateLimit code msg = true) (hlt : attempt < 3) :
    analyzeGo parse responses attempt (fuel + 1) waits
      = analyzeGo parse responses (attempt + 1) fuel
          (waits ++ [1000 * attempt ^ 2]) := by
  simp only [analyzeGo, h]
  rw [if_pos ⟨hr, hlt⟩]

/-- Step lemma: any other error, or a rate-limited error on the final
attempt, ends the loop immediately with the all-empty result. -/
theorem analyzeGo_error_stop (parse : String → Option ParsedFields)
    (responses : Nat → ApiOutcome) (attempt fuel : Nat) (waits : List Nat)
    (code : Nat) (msg : String) (h : responses attempt = .error code msg)
    (hstop : ¬(isRateLimit code msg = true ∧ attempt < 3)) :
    analyzeGo parse responses attempt (fuel + 1) waits
      = (emptyTag, attempt, waits) := by
  simp only [analyzeGo, h]
  rw [if_neg hstop]

/-- Claim C2: when every attempt fails with a rate-limit signal (HTTP 429
or a rate-matching message), the classification performs exactly 3
attempts, waiting 1000 times the square of the attempt number (1000 ms,
then 4000 ms) before the retries, and then returns the all-empty result
without propagating anything (the loop is a total function into
TagResult); when the first attempt fails with any non-rate-limit transport
error, it returns the all-empty result immediately after that single
attempt, with no waits. -/
theorem c2_classify_retries (parse : String → Option ParsedFields)
    (responses : Nat → ApiOutcome) :
    ((∀ n, ∃ code msg, responses n = .error code msg ∧
          isRateLimit code msg = true) →
        analyzeImage parse responses = (emptyTag, 3, [1000, 4000]))
    ∧ (∀ code msg, responses 1 = .error code msg →
        isRateLimit code msg = false →
        analyzeImage parse responses = (emptyTag, 1, [])) := by
  constructor
  · intro h
    obtain ⟨c1, m1, e1, r1⟩ := h 1
    obtain ⟨c2, m2, e2, r2⟩ := h 2
    obtain ⟨c3, m3, e3, r3⟩ := h 3
    show analyzeGo parse responses 1 (2 + 1) [] = _
    rw [analyzeGo_error_retry parse responses 1 2 [] c1 m1 e1 r1 (by omega)]
    show analyzeGo parse responses 2 (1 + 1) _ = _
    rw [analyzeGo_error_retry parse responses 2 1 _ c2 m2 e2 r2 (by omega)]
    show analyzeGo parse responses 3 (0 + 1) _ = _
    rw [analyzeGo_error_stop parse responses 3 0 _ c3 m3 e3
      (fun hh => absurd hh.2 (by omega))]
    decide
  · intro code msg e1 hrl
    show analyzeGo parse responses 1 (2 + 1) [] = _
    rw [analyzeGo_error_stop parse responses 1 2 [] code msg e1
      (fun hh => by rw [hrl] at hh; exact Bool.noConfusion hh.1)]

/-- Claim C2 witness: the retry theorem evaluated on the always-429 oracle
and on a hard-error oracle. -/
theorem c2_classify_retries_witness :
    analyzeImage parseNone all429 = (emptyTag, 3, [1000, 4000])
    ∧ analyzeImage parseNone errBad = (emptyTag, 1, []) :=
  ⟨(c2_classify_retries parseNone all429).1
      (fun _ => ⟨429, "Too Many Requests", rfl, by decide⟩),
   (c2_classify_retries parseNone errBad).2 400 "Invalid value" rfl (by decide)⟩

/-- Claim C6: when the first response succeeds but its cleaned text is not
parseable JSON, the classification returns, on that same first attempt and
with no waits (hence no retry), the all-empty result carrying the cleaned
raw text. -/
theorem c6_parse_failure_no_retry (parse : String → Option ParsedFields)
    (responses : Nat → ApiOutcome) (t : String)
    (h1 : responses 1 = .success t) (ht : t ≠ "")
    (hp : parse (cleanFence t) = none) :
    analyzeImage parse responses
      = ({ emptyTag with raw := cleanFence t }, 1, []) := by
  have hpr : processResponse parse t = { emptyTag with raw := cleanFence t } := by
    simp only [processResponse]
    rw [if_neg ht, hp]
  show analyzeGo parse responses 1 (2 + 1) [] = _
  rw [analyzeGo_success parse responses 1 2 [] t h1, hpr]

/-- Claim C6 witness: the parse-failure theorem evaluated on a concrete
non-JSON response. -/
theorem c6_parse_failure_no_retry_witness :
    analyzeImage parseNone succBad
      = ({ emptyTag with raw := cleanFence "not json" }, 1, []) :=
  c6_parse_failure_no_retry parseNone succBad "not json" rfl (by decide) rfl

/-- Cleaning only looks at the cleaned text, so two non-empty raw texts
with equal cleaned forms process identically. -/
theorem processResponse_congr (parse : String → Option ParsedFields)
    (r1 r2 : String) (h1 : r1 ≠ "") (h2 : r2 ≠ "")
    (h : cleanFence r1 = cleanFence r2) :
    processResponse parse r1 = processResponse parse r2 := by
  simp only [processResponse]
  rw [if_neg h1, if_neg h2, h]

/-- Head of a take of seven elements. -/
theorem head_take_seven (l : List Char) : (l.take 7).head? = l.head? := by
  cases l <;> rfl

/-- Head of a take of three elements. -/
theorem head_take_three (l : List Char) : (l.take 3).head? = l.head? := by
  cases l <;> rfl

/-- Claim C5: a response payload wrapped in a Markdown code fence is
cleaned to the same string as the bare payload, hence (for any JSON parse
function) classifies to an identical TagResult. The payload is assumed to
start with an opening brace and end with a closing brace, as the strict
JSON object the source instructs the model to return, and the wrapping may
use arbitrary whitespace inside the fence. -/
theorem c5_fence_transparent (parse : String → Option ParsedFields)
    (p ws1 ws2 : String)
    (hhead : p.data.head? = some '{')
    (hlast : p.data.getLast? = some '}')
    (hws1 : ∀ c ∈ ws1.data, isJsWs c = true)
    (hws2 : ∀ c ∈ ws2.data, isJsWs c = true) :
    processResponse parse ("```json" ++ ws1 ++ p ++ ws2 ++ "```")
      = processResponse parse p := by
  obtain ⟨tl, hd⟩ : ∃ tl, p.data = '{' :: tl := by
    cases hp : p.data with
    | nil => rw [hp] at hhead; exact Option.noConfusion hhead
    | cons c t =>
        rw [hp] at hhead
        exact ⟨t, by rw [Option.some_inj.mp hhead.symm]⟩
  obtain ⟨rl, hr⟩ : ∃ rl, p.data.reverse = '}' :: rl := by
    have hrev : p.data.reverse.head? = some '}' := by
      rw [List.head?_reverse]; exact hlast
    cases hp : p.data.reverse with
    | nil => rw [hp] at hrev; exact Option.noConfusion hrev
    | cons c t =>
        rw [hp] at hrev
        exact ⟨t, by rw [Option.some_inj.mp hrev.symm]⟩
  have hWdata : ("```json" ++ ws1 ++ p ++ ws2 ++ "```").data
      = fencePre ++ (ws1.data ++ (p.data ++ (ws2.data ++ fenceSuf))) := by
    simp only [String.data_append, List.append_assoc, fencePre, fenceSuf]
  have h1 : dropFencePre ("```json" ++ ws1 ++ p ++ ws2 ++ "```").data
      = p.data ++ (ws2.data ++ fenceSuf) := by
    rw [hWdata]
    unfold dropFencePre
    have htake : List.take 7 (fencePre ++ (ws1.data ++ (p.data ++ (ws2.data ++ fenceSuf))))
        = fencePre := List.take_left' (by decide)
    have hdrop : List.drop 7 (fencePre ++ (ws1.data ++ (p.data ++ (ws2.data ++ fenceSuf))))
        = ws1.data ++ (p.data ++ (ws2.data ++ fenceSuf)) := List.drop_left' (by decide)
    rw [if_pos htake, hdrop, List.dropWhile_append_of_pos hws1, hd, List.cons_append,
      List.dropWhile_cons_of_neg (by decide), ← List.cons_append, ← hd]
  have h2 : dropFenceSuf (p.data ++ (ws2.data ++ fenceSuf)) = p.data := by
    unfold dropFenceSuf
    have hsufrev : fenceSuf.reverse = fenceSuf := by decide
    have hrev : (p.data ++ (ws2.data ++ fenceSuf)).reverse
        = fenceSuf ++ (ws2.data.reverse ++ p.data.reverse) := by
      simp [List.reverse_append, hsufrev]
    have htake : List.take 3 (fenceSuf ++ (ws2.data.reverse ++ p.data.reverse))
        = fenceSuf := List.take_left' (by decide)
    have hdrop : List.drop 3 (fenceSuf ++ (ws2.data.reverse ++ p.data.reverse))
        = ws2.data.reverse ++ p.data.reverse := List.drop_left' (by decide)
    rw [hrev, if_pos htake, hdrop,
      List.dropWhile_append_of_pos (by intro a ha; exact hws2 a (List.mem_reverse.mp ha)),
      hr, List.dropWhile_cons_of_neg (by decide), ← hr, List.reverse_reverse]
  have h3 : dropFencePre p.data = p.data := by
    unfold dropFencePre
    have hneg : ¬ (List.take 7 p.data = fencePre) := by
      intro habs
      have hh := congrArg List.head? habs
      rw [head_take_seven, hd] at hh
      exact (by decide : ¬ (some '{' = fencePre.head?)) hh
    rw [if_neg hneg]
  have h4 : dropFenceSuf p.data = p.data := by
    unfold dropFenceSuf
    have hneg : ¬ (List.take 3 p.data.reverse = fenceSuf) := by
      intro habs
      have hh := congrArg List.head? habs
      rw [head_take_three, hr] at hh
      exact (by decide : ¬ (some '}' = fenceSuf.head?)) hh
    rw [if_neg hneg]
  have hclean : cleanFence ("```json" ++ ws1 ++ p ++ ws2 ++ "```")
      = cleanFence p := by
    unfold cleanFence
    rw [h1, h2, h3, h4]
  refine processResponse_congr parse _ _ ?_ ?_ hclean
  · intro habs
    have hnil : ("```json" ++ ws1 ++ p ++ ws2 ++ "```").data = [] := by
      rw [habs]
    rw [hWdata] at hnil
    exact (by decide : fencePre ≠ []) (List.append_eq_nil.mp hnil).1
  · intro habs
    have hnil : p.data = [] := by rw [habs]
    rw [hd] at hnil
    exact List.noConfusion hnil

/-- Claim C5 witness: the fence-transparency theorem evaluated on the
concrete payload of the specification, wrapped with a single space inside
the fence. -/
theorem c5_fence_transparent_witness :
    processResponse parseNone ("```json" ++ " " ++ jsonSample ++ "" ++ "```")
      = processResponse parseNone jsonSample :=
  c5_fence_transparent parseNone jsonSample " " ""
    (by decide) (by decide) (by decide) (by decide)

/-- One-step unfolding of the core digit renderer. -/
theorem toDigitsCore_succ (fuel n : Nat) (acc : List Char) :
    Nat.toDigitsCore 10 (fuel + 1) n acc
      = if n / 10 = 0 then Nat.digitChar (n % 10) :: acc
        else Nat.toDigitsCore 10 fuel (n / 10) (Nat.digitChar (n % 10) :: acc) := rfl

/-- Accumulator independence of the core digit renderer. -/
theorem toDigitsCore_acc (fuel : Nat) :
    ∀ (n : Nat) (acc : List Char),
      Nat.toDigitsCore 10 fuel n acc = Nat.toDigitsCore 10 fuel n [] ++ acc := by
  induction fuel with
  | zero => intro n acc; rfl
  | succ fuel ih =>
    intro n acc
    rw [toDigitsCore_succ, toDigitsCore_succ]
    by_cases h : n / 10 = 0
    · rw [if_pos h, if_pos h]
      rfl
    · rw [if_neg h, if_neg h, ih (n / 10) (Nat.digitChar (n % 10) :: acc),
        ih (n / 10) [Nat.digitChar (n % 10)], List.append_assoc]
      rfl

/-- Value of a digit character below ten. -/
theorem digitChar_val (n : Nat) (h : n < 10) :
    (Nat.digitChar n).toNat - 48 = n := by
  interval_cases n <;> rfl

/-- Folding the decoder over a one-element extension. -/
theorem decDigits_append_singleton (l : List Char) (c : Char) :
    decDigits (l ++ [c]) = 10 * decDigits l + (c.toNat - 48) := by
  unfold decDigits
  rw [List.foldl_append]
  rfl

/-- The decimal decoder is a left inverse of the core digit renderer. -/
theorem decDigits_toDigitsCore (fuel : Nat) :
    ∀ n, n ≤ fuel → decDigits (Nat.toDigitsCore 10 (fuel + 1) n []) = n := by
  induction fuel with
  | zero =>
    intro n hn
    have h0 : n = 0 := Nat.le_zero.mp hn
    subst h0
    decide
  | succ fuel ih =>
    intro n hn
    rw [toDigitsCore_succ]
    by_cases h : n / 10 = 0
    · rw [if_pos h]
      have hlt : n < 10 := by omega
      show decDigits [Nat.digitChar (n % 10)] = n
      rw [Nat.mod_eq_of_lt hlt]
      show 10 * 0 + ((Nat.digitChar n).toNat - 48) = n
      rw [digitChar_val n hlt]
      omega
    · rw [if_neg h, toDigitsCore_acc, decDigits_append_singleton]
      have hn0 : n ≠ 0 := fun e => h (by rw [e])
      have hdivlt : n / 10 < n := Nat.div_lt_self (by omega) (by omega)
      have hdiv : n / 10 ≤ fuel := by omega
      rw [ih (n / 10) hdiv, digitChar_val (n % 10) (Nat.mod_lt _ (by omega))]
      omega

/-- Distinct naturals have distinct decimal digit lists. -/
theorem toDigits_inj {a b : Nat} (h : Nat.toDigits 10 a = Nat.toDigits 10 b) :
    a = b := by
  have ha := decDigits_toDigitsCore a a (Nat.le_refl a)
  have hb := decDigits_toDigitsCore b b (Nat.le_refl b)
  rw [← ha, ← hb]
  show decDigits (Nat.toDigits 10 a) = decDigits (Nat.toDigits 10 b)
  rw [h]

/-- The digit list of a natural is never empty. -/
theorem toDigits_ne_nil (n : Nat) : Nat.toDigits 10 n ≠ [] := by
  show Nat.toDigitsCore 10 (n + 1) n [] ≠ []
  rw [toDigitsCore_succ]
  by_cases h : n / 10 = 0
  · rw [if_pos h]
    exact fun habs => List.noConfusion habs
  · rw [if_neg h, toDigitsCore_acc]
    intro habs
    exact List.noConfusion (List.append_eq_nil.mp habs).2

/-- Character data of a suffixed candidate name. -/
theorem candName_data (base ext : String) (k : Nat) :
    (candName base ext (k + 1)).data
      = base.data ++ ('_' :: (Nat.toDigits 10 (k + 1) ++ ext.data)) := by
  show (base ++ "_" ++ Nat.repr (k + 1) ++ ext).data = _
  simp only [String.data_append, List.append_assoc]
  rfl

/-- Distinct counters produce distinct candidate names. -/
theorem candName_inj (base ext : String) :
    Function.Injective (candName base ext) := by
  intro i j h
  have hd := congrArg String.data h
  match i, j with
  | 0, 0 => rfl
  | 0, j + 1 =>
    exfalso
    have h0 : (candName base ext 0).data = base.data ++ ext.data := rfl
    rw [h0, candName_data] at hd
    have hlen := congrArg List.length hd
    simp only [List.length_append, List.length_cons] at hlen
    omega
  | i + 1, 0 =>
    exfalso
    have h0 : (candName base ext 0).data = base.data ++ ext.data := rfl
    rw [h0, candName_data] at hd
    have hlen := congrArg List.length hd
    simp only [List.length_append, List.length_cons] at hlen
    omega
  | i + 1, j + 1 =>
    rw [candName_data, candName_data] at hd
    have h1 := List.append_cancel_left hd
    injection h1 with _ h2
    have h3 := List.append_cancel_right h2
    rw [toDigits_inj h3]

/-- Pigeonhole: with more candidates than existing files, some candidate
in the window is free. -/
theorem exists_candName_free (fs : List String) (base ext : String)
    (k fuel : Nat) (h : fs.length < fuel) :
    ∃ j, j < fuel ∧ candName base ext (k + j) ∉ fs := by
  by_contra hall
  push_neg at hall
  have hinj : Function.Injective (fun j => candName base ext (k + j)) := by
    intro a b hab
    have := candName_inj base ext hab
    omega
  have hsub : (Finset.range fuel).image (fun j => candName base ext (k + j))
      ⊆ fs.toFinset := by
    intro x hx
    obtain ⟨j, hj, rfl⟩ := Finset.mem_image.mp hx
    rw [List.mem_toFinset]
    exact hall j (Finset.mem_range.mp hj)
  have hcard := Finset.card_le_card hsub
  rw [Finset.card_image_of_injective _ hinj, Finset.card_range] at hcard
  have := List.toFinset_card_le (l := fs)
  omega

/-- The collision loop never returns a name already present, as long as a
free candidate exists within the fuel window. -/
theorem findFreeGo_not_mem (fs : List String) (base ext : String) :
    ∀ (fuel k : Nat), (∃ j, j < fuel ∧ candName base ext (k + j) ∉ fs) →
      findFreeGo fs base ext k fuel ∉ fs := by
  intro fuel
  induction fuel with
  | zero =>
    intro k hex
    obtain ⟨j, hj, _⟩ := hex
    exact absurd hj (by omega)
  | succ fuel ih =>
    intro k hex
    obtain ⟨j, hj, hfree⟩ := hex
    show (if candName base ext k ∈ fs then findFreeGo fs base ext (k + 1) fuel
      else candName base ext k) ∉ fs
    by_cases hk : candName base ext k ∈ fs
    · rw [if_pos hk]
      apply ih
      cases j with
      | zero => exact absurd hk (by simpa using hfree)
      | succ j' =>
        refine ⟨j', by omega, ?_⟩
        have harith : k + 1 + j' = k + (j' + 1) := by omega
        rw [harith]
        exact hfree
    · rw [if_neg hk]
      exact hk

/-- The chosen destination is never an existing file name. -/
theorem findFree_not_mem (fs : List String) (base ext : String) :
    findFree fs base ext ∉ fs :=
  findFreeGo_not_mem fs base ext (fs.length + 1) 0
    (exists_candName_free fs base ext 0 (fs.length + 1) (by omega))

/-- Unfolding of processOne on a valid result: some fresh destination is
prepended to the directory listing and appended to the copies and entries. -/
theorem processOne_valid (st : RunState) (file : String) (r : TagResult)
    (hv : hasValidData r = true) :
    ∃ dest frag title,
      dest ∉ st.fs ∧
      processOne st file r = ⟨dest :: st.fs, st.copied ++ [dest],
        st.entries ++ [⟨r.year, r.make, r.model, r.description, dest, title, frag⟩],
        st.html ++ frag⟩ := by
  refine ⟨findFree st.fs
      (safeName r.make ++ "_" ++ safeName r.model ++ "_" ++ safeName r.year)
      (extOf file),
    renderEntry r.year r.make r.model r.description
      ("processed_gallery/"
        ++ findFree st.fs
            (safeName r.make ++ "_" ++ safeName r.model ++ "_" ++ safeName r.year)
            (extOf file))
      (mkTitle r.year r.make r.model),
    mkTitle r.year r.make r.model,
    findFree_not_mem _ _ _, ?_⟩
  unfold processOne
  rw [if_pos hv]

/-- Unfolding of processOne on an invalid result: the state is unchanged. -/
theorem processOne_invalid (st : RunState) (file : String) (r : TagResult)
    (hv : hasValidData r = false) : processOne st file r = st := by
  unfold processOne
  rw [if_neg (by simp [hv])]

/-- The entry image paths always mirror the copied destinations. -/
theorem runAll_entries_paths : ∀ (inputs : List (String × TagResult)) (st : RunState),
    st.entries.map (fun e => e.imagePath) = st.copied →
    (runAll st inputs).entries.map (fun e => e.imagePath)
      = (runAll st inputs).copied := by
  intro inputs
  induction inputs with
  | nil => exact fun st h => h
  | cons pr rest ih =>
    intro st h
    obtain ⟨file, r⟩ := pr
    show (runAll (processOne st file r) rest).entries.map _
      = (runAll (processOne st file r) rest).copied
    apply ih
    by_cases hv : hasValidData r
    · obtain ⟨dest, frag, title, hfree, heq⟩ := processOne_valid st file r hv
      rw [heq]
      simp [h]
    · rw [processOne_invalid st file r (by rwa [Bool.not_eq_true] at hv)]
      exact h

/-- One destination is copied per valid input. -/
theorem runAll_copied_length : ∀ (inputs : List (String × TagResult)) (st : RunState),
    (runAll st inputs).copied.length
      = st.copied.length + (inputs.filter (fun pr => hasValidData pr.2)).length := by
  intro inputs
  induction inputs with
  | nil => intro st; simp [runAll]
  | cons pr rest ih =>
    intro st
    obtain ⟨file, r⟩ := pr
    show (runAll (processOne st file r) rest).copied.length = _
    rw [ih, List.filter_cons]
    by_cases hv : hasValidData r
    · obtain ⟨dest, frag, title, hfree, heq⟩ := processOne_valid st file r hv
      rw [heq]
      simp [hv]
      omega
    · rw [processOne_invalid st file r (by rwa [Bool.not_eq_true] at hv)]
      simp [hv]

/-- The HTML accumulator is always the header followed by the fragments of
the accumulated entries, in order. -/
theorem runAll_html : ∀ (inputs : List (String × TagResult)) (st : RunState),
    st.html = st.entries.foldl (fun acc e => acc ++ e.html) htmlHeader →
    (runAll st inputs).html
      = (runAll st inputs).entries.foldl (fun acc e => acc ++ e.html) htmlHeader := by
  intro inputs
  induction inputs with
  | nil => exact fun st h => h
  | cons pr rest ih =>
    intro st h
    obtain ⟨file, r⟩ := pr
    show (runAll (processOne st file r) rest).html = _
    apply ih
    by_cases hv : hasValidData r
    · obtain ⟨dest, frag, title, hfree, heq⟩ := processOne_valid st file r hv
      rw [heq]
      show st.html ++ frag
        = (st.entries
            ++ ([⟨r.year, r.make, r.model, r.description, dest, title, frag⟩]
                : List GalleryEntry)).foldl
            (fun (acc : String) (e : GalleryEntry) => acc ++ e.html) htmlHeader
      rw [List.foldl_append, ← h]
      rfl
    · rw [processOne_invalid st file r (by rwa [Bool.not_eq_true] at hv)]
      exact h

/-- The visible fields of the accumulated entries are exactly those of the
valid inputs, in processing order. -/
theorem runAll_entries_key : ∀ (inputs : List (String × TagResult)) (st : RunState),
    (runAll st inputs).entries.map (fun e => (e.year, e.make, e.model, e.desc))
      = st.entries.map (fun e => (e.year, e.make, e.model, e.desc))
        ++ (inputs.filter (fun pr => hasValidData pr.2)).map
            (fun pr => (pr.2.year, pr.2.make, pr.2.model, pr.2.description)) := by
  intro inputs
  induction inputs with
  | nil => intro st; simp [runAll]
  | cons pr rest ih =>
    intro st
    obtain ⟨file, r⟩ := pr
    show (runAll (processOne st file r) rest).entries.map _ = _
    rw [ih, List.filter_cons]
    by_cases hv : hasValidData r
    · obtain ⟨dest, frag, title, hfree, heq⟩ := processOne_valid st file r hv
      rw [heq]
      simp [hv]
    · rw [processOne_invalid st file r (by rwa [Bool.not_eq_true] at hv)]
      simp [hv]

/-- Freshness invariant preservation for one loop step: the copied list
stays duplicate-free, copied names are present in the directory listing,
the initial listing is preserved, and copied names avoid the initial
listing. -/
theorem processOne_fresh (fs0 : List String) (st : RunState) (file : String)
    (r : TagResult)
    (h1 : st.copied.Nodup) (h2 : ∀ d ∈ st.copied, d ∈ st.fs)
    (h3 : ∀ d ∈ fs0, d ∈ st.fs) (h4 : ∀ d ∈ st.copied, d ∉ fs0) :
    (processOne st file r).copied.Nodup
    ∧ (∀ d ∈ (processOne st file r).copied, d ∈ (processOne st file r).fs)
    ∧ (∀ d ∈ fs0, d ∈ (processOne st file r).fs)
    ∧ (∀ d ∈ (processOne st file r).copied, d ∉ fs0) := by
  by_cases hv : hasValidData r
  · obtain ⟨dest, frag, title, hfree, heq⟩ := processOne_valid st file r hv
    rw [heq]
    refine ⟨?_, ?_, ?_, ?_⟩
    · refine List.Nodup.append h1 (List.nodup_singleton dest) ?_
      intro a ha hb
      rw [List.mem_singleton] at hb
      exact hfree (hb ▸ h2 a ha)
    · intro d hd
      rcases List.mem_append.mp hd with hc | hs
      · exact List.mem_cons_of_mem _ (h2 d hc)
      · rw [List.mem_singleton] at hs
        rw [hs]
        exact List.mem_cons_self _ _
    · intro d hd
      exact List.mem_cons_of_mem _ (h3 d hd)
    · intro d hd
      rcases List.mem_append.mp hd with hc | hs
      · exact h4 d hc
      · rw [List.mem_singleton] at hs
        rw [hs]
        intro habs
        exact hfree (h3 dest habs)
  · rw [processOne_invalid st file r (by rwa [Bool.not_eq_true] at hv)]
    exact ⟨h1, h2, h3, h4⟩

/-- Freshness invariant over a whole run. -/
theorem runAll_fresh (fs0 : List String) :
    ∀ (inputs : List (String × TagResult)) (st : RunState),
    st.copied.Nodup → (∀ d ∈ st.copied, d ∈ st.fs) → (∀ d ∈ fs0, d ∈ st.fs) →
    (∀ d ∈ st.copied, d ∉ fs0) →
    (runAll st inputs).copied.Nodup
      ∧ (∀ d ∈ (runAll st inputs).copied, d ∉ fs0) := by
  intro inputs
  induction inputs with
  | nil => exact fun st h1 _ _ h4 => ⟨h1, h4⟩
  | cons pr rest ih =>
    intro st h1 h2 h3 h4
    obtain ⟨file, r⟩ := pr
    have hp := processOne_fresh fs0 st file r h1 h2 h3 h4
    exact ih (processOne st file r) hp.1 hp.2.1 hp.2.2.1 hp.2.2.2

/-- Claim C3: the loop output never collides: the name chosen by the
collision loop is never an existing file, over a whole run the copied
destinations are pairwise distinct and distinct from every initially
existing file, and of two inputs both resolving to the base name
chevrolet_camaro_1969, the second is copied with the suffix _1 before its
preserved extension. -/
theorem c3_no_overwrite :
    (∀ (fs : List String) (base ext : String), findFree fs base ext ∉ fs)
    ∧ (∀ (fs0 : List String) (inputs : List (String × TagResult)),
        (runAll (initState fs0) inputs).copied.Nodup
        ∧ ∀ d ∈ (runAll (initState fs0) inputs).copied, d ∉ fs0)
    ∧ (runAll (initState []) [("a.jpg", camaroResult), ("b.jpg", camaroResult)]).copied
        = ["chevrolet_camaro_1969.jpg", "chevrolet_camaro_1969_1.jpg"] := by
  refine ⟨findFree_not_mem, ?_, ?_⟩
  · intro fs0 inputs
    exact runAll_fresh fs0 inputs (initState fs0) List.nodup_nil
      (fun d hd => absurd hd (List.not_mem_nil d))
      (fun d hd => hd)
      (fun d hd => absurd hd (List.not_mem_nil d))
  · decide

/-- Claim C4: over a whole run, the copied files and the emitted gallery
entries coincide: the entry image paths are exactly the copied
destinations (in order, so no orphan copy and no entry without its file),
one file is copied per valid input and none for invalid inputs, and the
HTML document is the header followed by exactly the fragments of those
entries. -/
theorem c4_copies_iff_entries (fs0 : List String)
    (inputs : List (String × TagResult)) :
    (runAll (initState fs0) inputs).entries.map (fun e => e.imagePath)
        = (runAll (initState fs0) inputs).copied
    ∧ (runAll (initState fs0) inputs).copied.length
        = (inputs.filter (fun pr => hasValidData pr.2)).length
    ∧ (runAll (initState fs0) inputs).html
        = (runAll (initState fs0) inputs).entries.foldl
            (fun acc e => acc ++ e.html) htmlHeader := by
  refine ⟨runAll_entries_paths inputs (initState fs0) rfl, ?_,
    runAll_html inputs (initState fs0) rfl⟩
  rw [runAll_copied_length inputs (initState fs0)]
  simp [initState]

/-- Claim C8: the single-image run with the Camaro result copies one file
and emits one entry; its title joins the non-empty of year, make, model
with single spaces; its fragment carries the three data attributes with
the field values and the data-desc attribute with the (here quote-free)
description; quotes in a description are escaped as the quot entity; and
for every run the entries appear in processing order, one per valid
input. -/
theorem c8_gallery_rendering :
    ((runAll (initState []) [("car.jpg", camaroResult)]).entries.map
        (fun e => (e.imagePath, e.title))
      = [("chevrolet_camaro_1969.jpg", "1969 Chevrolet Camaro")])
    ∧ mkTitle "1969" "Chevrolet" "Camaro" = "1969 Chevrolet Camaro"
    ∧ (∀ e ∈ (runAll (initState []) [("car.jpg", camaroResult)]).entries,
        hasSubstr e.html.data "data-year=\"1969\"".data = true
        ∧ hasSubstr e.html.data "data-make=\"Chevrolet\"".data = true
        ∧ hasSubstr e.html.data "data-model=\"Camaro\"".data = true
        ∧ hasSubstr e.html.data "data-desc=\"A classic muscle car.\"".data = true
        ∧ hasSubstr e.html.data
            "<h5 class=\"card-title\">1969 Chevrolet Camaro</h5>".data = true)
    ∧ escQuotes "say \"hi\"" = "say &quot;hi&quot;"
    ∧ (∀ (fs0 : List String) (inputs : List (String × TagResult)),
        (runAll (initState fs0) inputs).entries.map
            (fun e => (e.year, e.make, e.model, e.desc))
          = (inputs.filter (fun pr => hasValidData pr.2)).map
              (fun pr => (pr.2.year, pr.2.make, pr.2.model, pr.2.description))) := by
  refine ⟨by decide, by decide, by decide, by decide, ?_⟩
  intro fs0 inputs
  have h := runAll_entries_key inputs (initState fs0)
  simpa [initState] using h

/-- Claim C9: in the rendered fragment only the description value is
quote-escaped: the fragment decomposes around the data attributes with
year, make and model interpolated verbatim and the description passed
through escQuotes, the title is interpolated verbatim into the card
heading, and concretely a double quote inside the make reaches the
attribute text unescaped while the description quotes are escaped. -/
theorem c9_verbatim_interpolation :
    (∀ y m mo d rel t : String, ∃ pre mid post : List Char,
        (renderEntry y m mo d rel t).data
          = pre
              ++ ("data-year=\"" ++ y ++ "\" data-make=\"" ++ m
                  ++ "\" data-model=\"" ++ mo ++ "\"").data
              ++ mid
              ++ ("data-desc=\"" ++ escQuotes d ++ "\"").data
              ++ post)
    ∧ (∀ y m mo d rel t : String, ∃ pre post : List Char,
        (renderEntry y m mo d rel t).data
          = pre ++ ("<h5 class=\"card-title\">" ++ t ++ "</h5>").data ++ post)
    ∧ hasSubstr (renderEntry "1969" "Chev\"rolet" "Camaro" "a \"fast\" car"
        "p.jpg" "T").data "data-make=\"Chev\"rolet\"".data = true
    ∧ hasSubstr (renderEntry "1969" "Chev\"rolet" "Camaro" "a \"fast\" car"
        "p.jpg" "T").data "Chev&quot;rolet".data = false
    ∧ hasSubstr (renderEntry "1969" "Chev\"rolet" "Camaro" "a \"fast\" car"
        "p.jpg" "T").data "data-desc=\"a &quot;fast&quot; car\"".data = true
    ∧ hasSubstr (renderEntry "1969" "Chev\"rolet" "Camaro" "a \"fast\" car"
        "p.jpg" "T").data "data-desc=\"a \"fast\" car\"".data = false := by
  refine ⟨?_, ?_, by decide, by decide, by decide, by decide⟩
  · intro y m mo d rel t
    refine ⟨"\n  <article class=\"col-md-6 col-lg-4 gallery-item\"\n           ".data,
      "\n           ".data,
      ((">\n    <div class=\"card bg-secondary text-white h-100 border-0 shadow-sm\">\n      <img src=\""
        ++ rel ++ "\" class=\"card-img-top\" alt=\"" ++ t
        ++ "\">\n      <div class=\"card-body\">\n        <h5 class=\"card-title\">"
        ++ t ++ "</h5>\n        <p class=\"card-text\">" ++ d
        ++ "</p>\n      </div>\n    </div>\n  </article>\n") : String).data, ?_⟩
    simp only [renderEntry, String.data_append, List.append_assoc]
    rfl
  · intro y m mo d rel t
    refine ⟨(("\n  <article class=\"col-md-6 col-lg-4 gallery-item\"\n           data-year=\""
        ++ y ++ "\" data-make=\"" ++ m ++ "\" data-model=\"" ++ mo
        ++ "\"\n           data-desc=\"" ++ escQuotes d
        ++ "\">\n    <div class=\"card bg-secondary text-white h-100 border-0 shadow-sm\">\n      <img src=\""
        ++ rel ++ "\" class=\"card-img-top\" alt=\"" ++ t
        ++ "\">\n      <div class=\"card-body\">\n        ") : String).data,
      (("\n        <p class=\"card-text\">" ++ d
        ++ "</p>\n      </div>\n    </div>\n  </article>\n") : String).data, ?_⟩
    simp only [renderEntry, String.data_append, List.append_assoc]
    rfl

end TagGallery
